import Mathlib

/-!
Verification of the battery server framework core against its specification.

Each Go source component used by the claims is translated into a shallow
Lean embedding:

* `goring` — the unbounded single-consumer ring queue
  (queue/goring/queue.go).  Go int64 indices are modelled by `Nat`: every
  index and counter in the source stays non-negative and far below 2^63,
  and Go `%` on non-negative int64 agrees with `Nat.mod`.
* `message` — route parsing and printing (net/message/route.go).  Go
  strings are modelled as `List Char`.
* `acceptor` — TCP length-prefixed framing (net/acceptor, TCPConn).
* `actorm` — the future process (actor package).  The future
  implementation file is not part of the sources, only its tests and the
  specification; the model is written from the specification.
* `client` — the request client: pending-request reaper and inbound
  packet handling.
-/

namespace goring

/-- Ring buffer backing store, from queue.go (`ringBuffer[T]`).
`buffer` has length `mod`; `head`/`tail` are indices into it. -/
structure RingBuffer (T : Type) where
  buffer : List T
  head : Nat
  tail : Nat
  mod : Nat
deriving DecidableEq

/-- Queue state, from queue.go (`Queue[T]`).  The mutex and the atomic
load/store pairs serialise accesses; the sequential model keeps the
fields directly. -/
structure Queue (T : Type) where
  len : Nat
  initialSize : Nat
  content : RingBuffer T
deriving DecidableEq

variable {T : Type} [Inhabited T]

/-- `New` from queue.go: a zeroed buffer of `initialSize` slots. -/
def new (initialSize : Nat) : Queue T :=
  { len := 0
    initialSize := initialSize
    content :=
      { buffer := List.replicate initialSize default
        head := 0
        tail := 0
        mod := initialSize } }

/-- `Queue.grow` from queue.go: allocate `mod * fillFactor` zeroed slots,
copy `mod` slots starting at the (already advanced) tail, reset
`head := 0`, `tail := mod`. -/
def grow (q : Queue T) (fillFactor : Nat) : Queue T :=
  let c := q.content
  let newLen := c.mod * fillFactor
  let newBuff :=
    (List.range c.mod).map (fun i => c.buffer.getD ((c.tail + i) % c.mod) default)
      ++ List.replicate (newLen - c.mod) default
  { q with content := { buffer := newBuff, head := 0, tail := c.mod, mod := newLen } }

/-- `Queue.Push` from queue.go: advance the tail; if it collides with the
head, grow by factor 2; then store the item at the (possibly new) tail
and bump `len`. -/
def push (q : Queue T) (item : T) : Queue T :=
  let c0 := q.content
  let c1 := { c0 with tail := (c0.tail + 1) % c0.mod }
  let q1 : Queue T := { q with content := c1 }
  let q2 := if c1.tail = c1.head then grow q1 2 else q1
  let q3 : Queue T := { q2 with len := q2.len + 1 }
  { q3 with content := { q3.content with buffer := q3.content.buffer.set q3.content.tail item } }

/-- `Queue.Length` from queue.go (atomic load of `len`). -/
def Length (q : Queue T) : Nat := q.len

/-- `Queue.Empty` from queue.go. -/
def Empty (q : Queue T) : Bool := Length q == 0

/-- `Queue.Pop` from queue.go.  Returns the Go pair `(value, ok)` together
with the post state. -/
def pop (q : Queue T) : (T × Bool) × Queue T :=
  if Empty q then ((default, false), q)
  else
    let c := q.content
    let h := (c.head + 1) % c.mod
    let res := c.buffer.getD h default
    let c2 := { c with head := h, buffer := c.buffer.set h default }
    ((res, true), { q with len := q.len - 1, content := c2 })

/-- Body of the `PopMany` copy loop in queue.go: read the slot at
`(head + 1 + i) % mod` into the output, then zero it. -/
def popManyStep (head mod : Nat) (acc : List T × List T) (i : Nat) : List T × List T :=
  let pos := (head + 1 + i) % mod
  (acc.1 ++ [acc.2.getD pos default], acc.2.set pos default)

/-- The `PopMany` loop of queue.go run for `count` iterations. -/
def popManyLoop (buf : List T) (head mod count : Nat) : List T × List T :=
  (List.range count).foldl (popManyStep head mod) ([], buf)

/-- `Queue.PopMany` from queue.go.  Returns the Go pair `(values, ok)`
together with the post state. -/
def popMany (q : Queue T) (count0 : Nat) : (List T × Bool) × Queue T :=
  if Empty q then (([], false), q)
  else
    let c := q.content
    let count := if q.len ≤ count0 then q.len else count0
    let r := popManyLoop c.buffer c.head c.mod count
    ((r.1, true),
     { q with
        len := q.len - count
        content := { c with head := (c.head + count) % c.mod, buffer := r.2 } })

/-- Abstraction: the queued elements in pop order.  Element `i` lives at
slot `(head + 1 + i) % mod`. -/
def toList (q : Queue T) : List T :=
  (List.range q.len).map
    (fun i => q.content.buffer.getD ((q.content.head + 1 + i) % q.content.mod) default)

/-- Representation invariant maintained by every queue operation. -/
def Inv (q : Queue T) : Prop :=
  0 < q.content.mod ∧
  q.content.head < q.content.mod ∧
  q.len < q.content.mod ∧
  q.content.tail = (q.content.head + q.len) % q.content.mod ∧
  q.content.buffer.length = q.content.mod

instance decidableInv (q : Queue T) : Decidable (Inv q) := by
  unfold Inv
  exact inferInstance

/-- `n` successive `Pop` calls: the values they return, in call order, and
the final state. -/
def popN (q : Queue T) : Nat → List T × Queue T
  | 0 => ([], q)
  | n + 1 =>
    let r := pop q
    let rest := popN r.2 n
    (r.1.1 :: rest.1, rest.2)

example : toList (push (push (new 2 : Queue Nat) 5) 6) = [5, 6] := by decide
example : toList (push (push (push (new 2 : Queue Nat) 5) 6) 7) = [5, 6, 7] := by decide
example : (pop (push (push (new 2 : Queue Nat) 5) 6)).1 = (5, true) := by decide
example : Inv (push (push (push (new 2 : Queue Nat) 5) 6) 7) := by decide
example : (popMany (push (push (push (new 1 : Queue Nat) 5) 6) 7) 2).1 = ([5, 6], true) := by
  decide
example :
    (popMany (push (push (new 1 : Queue Nat) 5) 6) 2).2
      = (popN (push (push (new 1 : Queue Nat) 5) 6) 2).2 := by decide

lemma getD_set_ne {α : Type} (l : List α) (i j : Nat) (a d : α) (h : i ≠ j) :
    (l.set i a).getD j d = l.getD j d := by
  rw [List.getD_eq_getD_get?, List.getD_eq_getD_get?, List.get?_set_ne a l h]

lemma getD_set_self {α : Type} (l : List α) (i : Nat) (a d : α) (h : i < l.length) :
    (l.set i a).getD i d = a := by
  rw [List.getD_eq_getD_get?, List.get?_set_eq_of_lt a h]
  rfl

lemma getD_map_range {α : Type} (f : Nat → α) {n i : Nat} (d : α) (h : i < n) :
    ((List.range n).map f).getD i d = f i := by
  have hl : i < ((List.range n).map f).length := by simpa using h
  rw [List.getD_eq_getElem _ _ hl]
  simp

lemma map_range_congr {α : Type} {f g : Nat → α} {n : Nat} (h : ∀ i, i < n → f i = g i) :
    (List.range n).map f = (List.range n).map g := by
  refine List.map_congr_left ?_
  intro a ha
  exact h a (List.mem_range.mp ha)

lemma add_mod_inj {m a b c : Nat} (ha : a < m) (hb : b < m)
    (h : (c + a) % m = (c + b) % m) : a = b := by
  have h3 : a % m = b % m := Nat.ModEq.add_left_cancel' c h
  rwa [Nat.mod_eq_of_lt ha, Nat.mod_eq_of_lt hb] at h3

lemma toList_length (q : Queue T) : (toList q).length = q.len := by
  simp [toList]

lemma pop_of_empty (q : Queue T) (h : q.len = 0) : pop q = ((default, false), q) := by
  simp [pop, Empty, Length, h]

lemma pop_closed (q : Queue T) (h : 0 < q.len) :
    pop q = ((q.content.buffer.getD ((q.content.head + 1) % q.content.mod) default, true),
      { q with
          len := q.len - 1
          content := { q.content with
            head := (q.content.head + 1) % q.content.mod
            buffer := q.content.buffer.set ((q.content.head + 1) % q.content.mod) default } }) := by
  have hne : Empty q = false := by
    simp only [Empty, Length, beq_eq_false_iff_ne, ne_eq]
    omega
  simp [pop, hne]

lemma pop_inv (q : Queue T) (hInv : Inv q) (h : 0 < q.len) : Inv (pop q).2 := by
  obtain ⟨hm, hh, hl, ht, hb⟩ := hInv
  rw [pop_closed q h]
  unfold Inv
  dsimp only
  refine ⟨hm, Nat.mod_lt _ hm, by omega, ?_, by simpa using hb⟩
  rw [Nat.mod_add_mod]
  have he : q.content.head + 1 + (q.len - 1) = q.content.head + q.len := by omega
  rw [he]
  exact ht

lemma pop_val (q : Queue T) (h : 0 < q.len) :
    (pop q).1 = ((toList q).getD 0 default, true) := by
  rw [pop_closed q h]
  unfold toList
  rw [getD_map_range _ _ h]

lemma pop_len (q : Queue T) (h : 0 < q.len) : (pop q).2.len = q.len - 1 := by
  rw [pop_closed q h]

lemma pop_toList (q : Queue T) (hInv : Inv q) (h : 0 < q.len) :
    toList (pop q).2 = (toList q).drop 1 := by
  obtain ⟨hm, hh, hl, ht, hb⟩ := hInv
  obtain ⟨n, hlen⟩ : ∃ n, q.len = n + 1 := ⟨q.len - 1, by omega⟩
  rw [pop_closed q h]
  unfold toList
  simp only [hlen, Nat.add_sub_cancel]
  rw [List.range_succ_eq_map, List.map_cons, List.map_map, List.drop_succ_cons, List.drop_zero]
  refine map_range_congr ?_
  intro i hi
  simp only [Function.comp]
  have hidx : ((q.content.head + 1) % q.content.mod + 1 + i) % q.content.mod
      = (q.content.head + 1 + Nat.succ i) % q.content.mod := by
    have h1 : (q.content.head + 1) % q.content.mod + 1 + i
        = (q.content.head + 1) % q.content.mod + (1 + i) := by omega
    rw [h1, Nat.mod_add_mod]
    have h2 : q.content.head + 1 + (1 + i) = q.content.head + 1 + Nat.succ i := by omega
    rw [h2]
  rw [hidx]
  refine getD_set_ne _ _ _ _ _ ?_
  intro he
  have hEq : (q.content.head + (1 + 0)) % q.content.mod
      = (q.content.head + (1 + Nat.succ i)) % q.content.mod := by
    have h0 : q.content.head + (1 + 0) = q.content.head + 1 := by omega
    have hs : q.content.head + (1 + Nat.succ i) = q.content.head + 1 + Nat.succ i := by omega
    rw [h0, hs, he]
  have hcontra : (1 : Nat) + 0 = 1 + Nat.succ i :=
    add_mod_inj (by omega) (by omega) hEq
  omega

lemma push_no_grow_closed (q : Queue T) (x : T)
    (hcol : ¬ (q.content.tail + 1) % q.content.mod = q.content.head) :
    push q x = { q with
      len := q.len + 1
      content := { q.content with
        tail := (q.content.tail + 1) % q.content.mod
        buffer := q.content.buffer.set ((q.content.tail + 1) % q.content.mod) x } } := by
  simp [push, hcol]

lemma push_grow_closed (q : Queue T) (x : T)
    (hcol : (q.content.tail + 1) % q.content.mod = q.content.head) :
    push q x = { q with
      len := q.len + 1
      content := {
        buffer := ((List.range q.content.mod).map
            (fun i => q.content.buffer.getD ((q.content.head + i) % q.content.mod) default)
          ++ List.replicate (q.content.mod * 2 - q.content.mod) default).set q.content.mod x
        head := 0
        tail := q.content.mod
        mod := q.content.mod * 2 } } := by
  simp [push, grow, hcol]

lemma collision_iff (q : Queue T) (hInv : Inv q) :
    (q.content.tail + 1) % q.content.mod = q.content.head ↔ q.len + 1 = q.content.mod := by
  obtain ⟨hm, hh, hl, ht, hb⟩ := hInv
  constructor
  · intro hcol
    rw [ht, Nat.mod_add_mod] at hcol
    by_contra hne
    have hlt : q.len + 1 < q.content.mod := by omega
    have h2 : (q.content.head + (q.len + 1)) % q.content.mod
        = (q.content.head + 0) % q.content.mod := by
      have h1 : q.content.head + (q.len + 1) = q.content.head + q.len + 1 := by omega
      rw [h1, hcol, Nat.add_zero, Nat.mod_eq_of_lt hh]
    have := add_mod_inj hlt hm h2
    omega
  · intro hlen
    rw [ht, Nat.mod_add_mod]
    have h1 : q.content.head + q.len + 1 = q.content.head + q.content.mod := by omega
    rw [h1, Nat.add_mod_right, Nat.mod_eq_of_lt hh]

lemma push_len (q : Queue T) (x : T) : (push q x).len = q.len + 1 := by
  by_cases hcol : (q.content.tail + 1) % q.content.mod = q.content.head
  · rw [push_grow_closed q x hcol]
  · rw [push_no_grow_closed q x hcol]

lemma push_closed (q : Queue T) (hInv : Inv q) (x : T) :
    Inv (push q x) ∧ toList (push q x) = toList q ++ [x] := by
  obtain ⟨hm, hh, hl, ht, hb⟩ := hInv
  by_cases hcol : (q.content.tail + 1) % q.content.mod = q.content.head
  · -- the push collides with the head: the buffer grows
    have hlen : q.len + 1 = q.content.mod :=
      (collision_iff q ⟨hm, hh, hl, ht, hb⟩).mp hcol
    rw [push_grow_closed q x hcol]
    constructor
    · unfold Inv
      dsimp only
      refine ⟨by omega, by omega, by omega, ?_, ?_⟩
      · rw [Nat.zero_add, hlen, Nat.mod_eq_of_lt (by omega)]
      · rw [List.length_set, List.length_append, List.length_map, List.length_range,
          List.length_replicate]
        omega
    · unfold toList
      dsimp only
      rw [List.range_succ, List.map_append]
      congr 1
      · refine map_range_congr ?_
        intro i hi
        dsimp only
        have hidx : (0 + 1 + i) % (q.content.mod * 2) = 1 + i := by
          refine Nat.mod_eq_of_lt ?_
          omega
        rw [hidx]
        rw [getD_set_ne _ _ _ _ _ (by omega)]
        rw [List.getD_append]
        · rw [getD_map_range _ _ (by omega)]
          have h1 : q.content.head + (1 + i) = q.content.head + 1 + i := by omega
          rw [h1]
        · rw [List.length_map, List.length_range]
          omega
      · simp only [List.map_cons, List.map_nil]
        have hidx : (0 + 1 + q.len) % (q.content.mod * 2) = q.content.mod := by
          have h1 : 0 + 1 + q.len = q.content.mod := by omega
          rw [h1]
          exact Nat.mod_eq_of_lt (by omega)
        rw [hidx]
        rw [getD_set_self]
        rw [List.length_append, List.length_map, List.length_range, List.length_replicate]
        omega
  · -- no collision: the buffer is reused in place
    have hlt : q.len + 1 < q.content.mod := by
      have hne : ¬ (q.len + 1 = q.content.mod) :=
        fun he => hcol ((collision_iff q ⟨hm, hh, hl, ht, hb⟩).mpr he)
      omega
    rw [push_no_grow_closed q x hcol]
    constructor
    · unfold Inv
      dsimp only
      refine ⟨hm, hh, by omega, ?_, by simpa using hb⟩
      rw [ht, Nat.mod_add_mod]
      have h1 : q.content.head + q.len + 1 = q.content.head + (q.len + 1) := by omega
      rw [h1]
    · unfold toList
      dsimp only
      rw [List.range_succ, List.map_append]
      congr 1
      · refine map_range_congr ?_
        intro i hi
        dsimp only
        refine getD_set_ne _ _ _ _ _ ?_
        intro he
        rw [ht, Nat.mod_add_mod] at he
        have hEq : (q.content.head + (q.len + 1)) % q.content.mod
            = (q.content.head + (1 + i)) % q.content.mod := by
          have h1 : q.content.head + (q.len + 1) = q.content.head + q.len + 1 := by omega
          have h2 : q.content.head + (1 + i) = q.content.head + 1 + i := by omega
          rw [h1, h2, he]
        have := add_mod_inj (by omega) (by omega) hEq
        omega
      · simp only [List.map_cons, List.map_nil]
        have hpos : (q.content.head + 1 + q.len) % q.content.mod
            = (q.content.tail + 1) % q.content.mod := by
          rw [ht, Nat.mod_add_mod]
          have h1 : q.content.head + q.len + 1 = q.content.head + 1 + q.len := by omega
          rw [h1]
        rw [hpos]
        rw [getD_set_self]
        rw [hb]
        exact Nat.mod_lt _ hm

/-- C1: the ring queue is a FIFO.  Relative to the abstraction `toList`
(the pushed-but-not-popped elements in push order), `Push` appends its
item at the back, `Pop` on a non-empty queue returns the front element
as `(value, true)` and removes exactly it, `Pop` on an empty queue
returns `(zero, false)` and leaves the state untouched, and `Length`
always equals the number of pushed-but-not-popped elements.  Both
operations preserve the representation invariant, so the refinement
extends to every sequence of Push and Pop operations. -/
theorem C1_ring_queue_fifo {T : Type} [Inhabited T] (q : Queue T) (hInv : Inv q) (x : T) :
    (Inv (push q x) ∧ toList (push q x) = toList q ++ [x]
      ∧ Length (push q x) = (toList q ++ [x]).length)
    ∧ (toList q = [] → pop q = ((default, false), q))
    ∧ (∀ a l, toList q = a :: l → (pop q).1 = (a, true) ∧ toList (pop q).2 = l ∧ Inv (pop q).2)
    ∧ Length q = (toList q).length := by
  obtain ⟨hinv2, htl⟩ := push_closed q hInv x
  refine ⟨⟨hinv2, htl, ?_⟩, ?_, ?_, (toList_length q).symm⟩
  · rw [← htl]
    exact (toList_length _).symm
  · intro h0
    have hl0 : q.len = 0 := by
      have hq := toList_length q
      rw [h0] at hq
      simpa using hq.symm
    exact pop_of_empty q hl0
  · intro a l hcons
    have hpos : 0 < q.len := by
      have hq := toList_length q
      rw [hcons] at hq
      simp at hq
      omega
    refine ⟨?_, ?_, pop_inv q hInv hpos⟩
    · rw [pop_val q hpos, hcons]
      rfl
    · rw [pop_toList q hInv hpos, hcons]
      rfl

theorem C1_ring_queue_fifo_witness :
    Inv (new 4 : Queue Nat)
    ∧ toList (push (new 4 : Queue Nat) 7) = toList (new 4 : Queue Nat) ++ [7]
    ∧ (∀ a l, toList (push (new 4 : Queue Nat) 7) = a :: l →
        (pop (push (new 4 : Queue Nat) 7)).1 = (a, true)) := by
  refine ⟨by decide, (C1_ring_queue_fifo (new 4 : Queue Nat) (by decide) 7).1.2.1, ?_⟩
  intro a l h
  exact (((C1_ring_queue_fifo (push (new 4 : Queue Nat) 7) (by decide) 0).2.2.1) a l h).1

/-- C2: when a Push advances the tail onto the head, the queue grows:
the new modulus is twice the old one, the head is reset to 0 and the
live elements are copied head-first to the slots immediately after it
(slot `1 + i` holds the element of FIFO index `i`), so the abstract
FIFO contents after the growing push are the old contents followed by
the pushed item: order is unchanged. -/
theorem C2_grow_doubles {T : Type} [Inhabited T] (q : Queue T) (hInv : Inv q) (x : T)
    (hcol : (q.content.tail + 1) % q.content.mod = q.content.head) :
    (push q x).content.mod = 2 * q.content.mod
    ∧ (push q x).content.head = 0
    ∧ toList (push q x) = toList q ++ [x]
    ∧ ∀ i, i < q.len →
        (push q x).content.buffer.getD (1 + i) default = (toList q).getD i default := by
  obtain ⟨hm, hh, hl, ht, hb⟩ := hInv
  have hlen : q.len + 1 = q.content.mod :=
    (collision_iff q ⟨hm, hh, hl, ht, hb⟩).mp hcol
  refine ⟨?_, ?_, (push_closed q ⟨hm, hh, hl, ht, hb⟩ x).2, ?_⟩
  · rw [push_grow_closed q x hcol]
    dsimp only
    omega
  · rw [push_grow_closed q x hcol]
  · intro i hi
    rw [push_grow_closed q x hcol]
    dsimp only
    rw [getD_set_ne _ _ _ _ _ (by omega)]
    rw [List.getD_append]
    · rw [getD_map_range _ _ (by omega)]
      unfold toList
      rw [getD_map_range _ _ hi]
      have h1 : q.content.head + (1 + i) = q.content.head + 1 + i := by omega
      rw [h1]
    · rw [List.length_map, List.length_range]
      omega

theorem C2_grow_doubles_witness :
    (push (new 1 : Queue Nat) 5).content.mod = 2 * (new 1 : Queue Nat).content.mod
    ∧ toList (push (new 1 : Queue Nat) 5) = toList (new 1 : Queue Nat) ++ [5] :=
  ⟨(C2_grow_doubles (new 1 : Queue Nat) (by decide) 5 (by decide)).1,
   (C2_grow_doubles (new 1 : Queue Nat) (by decide) 5 (by decide)).2.2.1⟩

lemma popManyStep_shift (hd m : Nat) (acc : List T × List T) (i : Nat) :
    popManyStep hd m acc (i + 1) = popManyStep ((hd + 1) % m) m acc i := by
  unfold popManyStep
  have h1 : ((hd + 1) % m + 1 + i) % m = (hd + 1 + (i + 1)) % m := by
    have h2 : (hd + 1) % m + 1 + i = (hd + 1) % m + (1 + i) := by omega
    rw [h2, Nat.mod_add_mod]
    have h3 : hd + 1 + (1 + i) = hd + 1 + (i + 1) := by omega
    rw [h3]
  rw [h1]

lemma foldl_popManyStep_acc (hd m : Nat) (l : List Nat) :
    ∀ (vs buf : List T),
      l.foldl (popManyStep hd m) (vs, buf)
        = (vs ++ (l.foldl (popManyStep hd m) ([], buf)).1,
           (l.foldl (popManyStep hd m) ([], buf)).2) := by
  induction l with
  | nil => intro vs buf; simp
  | cons i l ih =>
    intro vs buf
    rw [List.foldl_cons, List.foldl_cons]
    have hstep1 : popManyStep hd m (vs, buf) i
        = (vs ++ [buf.getD ((hd + 1 + i) % m) default], buf.set ((hd + 1 + i) % m) default) :=
      rfl
    have hstep2 : popManyStep hd m (([] : List T), buf) i
        = ([buf.getD ((hd + 1 + i) % m) default], buf.set ((hd + 1 + i) % m) default) :=
      rfl
    rw [hstep1, hstep2]
    rw [ih (vs ++ [buf.getD ((hd + 1 + i) % m) default]) (buf.set ((hd + 1 + i) % m) default)]
    rw [ih [buf.getD ((hd + 1 + i) % m) default] (buf.set ((hd + 1 + i) % m) default)]
    simp

lemma popManyLoop_succ (buf : List T) (hd m n : Nat) :
    popManyLoop buf hd m (n + 1)
      = (buf.getD ((hd + 1) % m) default
            :: (popManyLoop (buf.set ((hd + 1) % m) default) ((hd + 1) % m) m n).1,
         (popManyLoop (buf.set ((hd + 1) % m) default) ((hd + 1) % m) m n).2) := by
  unfold popManyLoop
  rw [List.range_succ_eq_map, List.foldl_cons, List.foldl_map]
  have hfun : (fun (acc : List T × List T) i => popManyStep hd m acc (Nat.succ i))
      = popManyStep ((hd + 1) % m) m := by
    funext acc i
    exact popManyStep_shift hd m acc i
  rw [hfun]
  have hinit : popManyStep hd m (([] : List T), buf) 0
      = ([buf.getD ((hd + 1) % m) default], buf.set ((hd + 1) % m) default) := rfl
  rw [hinit]
  rw [foldl_popManyStep_acc]
  simp [popManyLoop]

lemma popMany_core_eq_popN :
    ∀ (n : Nat) (q : Queue T), Inv q → 0 < n → n ≤ q.len →
      (popManyLoop q.content.buffer q.content.head q.content.mod n).1 = (popN q n).1
      ∧ ({ q with
            len := q.len - n
            content := { q.content with
              head := (q.content.head + n) % q.content.mod
              buffer := (popManyLoop q.content.buffer q.content.head q.content.mod n).2 } }
          : Queue T) = (popN q n).2 := by
  intro n
  induction n with
  | zero => intro q _ h0 _; omega
  | succ n ih =>
    intro q hInv hpos hle
    have hq : 0 < q.len := by omega
    have hpop := pop_closed q hq
    have hinv1 : Inv (pop q).2 := pop_inv q hInv hq
    rw [popManyLoop_succ]
    simp only [popN]
    rw [hpop] at hinv1 ⊢
    dsimp only at hinv1 ⊢
    rcases n with _ | n
    · simp only [popN]
      exact ⟨rfl, rfl⟩
    · have hih := ih _ hinv1 (Nat.succ_pos n) (by dsimp only; omega)
      dsimp only at hih
      refine ⟨by rw [hih.1], ?_⟩
      rw [← hih.2]
      simp only [Queue.mk.injEq, RingBuffer.mk.injEq]
      and_intros <;>
        first
          | rfl
          | trivial
          | omega
          | (rw [Nat.mod_add_mod]; congr 1; omega)

lemma popN_take : ∀ (n : Nat) (q : Queue T), Inv q → n ≤ q.len →
    (popN q n).1 = (toList q).take n := by
  intro n
  induction n with
  | zero => intro q _ _; rfl
  | succ n ih =>
    intro q hInv hle
    have hq : 0 < q.len := by omega
    have hcons : toList q = (toList q).getD 0 default :: (toList q).drop 1 := by
      have hlen : (toList q).length = q.len := toList_length q
      cases hl : toList q with
      | nil => rw [hl] at hlen; simp at hlen; omega
      | cons a t => rfl
    have hpopfst : (pop q).1.1 = (toList q).getD 0 default := by rw [pop_val q hq]
    simp only [popN]
    rw [ih (pop q).2 (pop_inv q hInv hq) (by rw [pop_len q hq]; omega)]
    rw [pop_toList q hInv hq, hpopfst]
    conv_rhs => rw [hcons]
    rfl

lemma popMany_closed (q : Queue T) (hq : 0 < q.len) (k : Nat) :
    popMany q k
      = (((popManyLoop q.content.buffer q.content.head q.content.mod (min k q.len)).1, true),
         { q with
            len := q.len - min k q.len
            content := { q.content with
              head := (q.content.head + min k q.len) % q.content.mod
              buffer := (popManyLoop q.content.buffer q.content.head q.content.mod (min k q.len)).2 } }) := by
  have hne : Empty q = false := by
    unfold Empty Length
    simp only [beq_eq_false_iff_ne, ne_eq]
    omega
  have hcount : (if q.len ≤ k then q.len else k) = min k q.len := by
    by_cases h : q.len ≤ k
    · rw [if_pos h, Nat.min_eq_right h]
    · rw [if_neg h, Nat.min_eq_left (by omega)]
  simp [popMany, hne, hcount]

/-- C10: PopMany is equivalent to repeated Pop.  On an empty queue
PopMany returns `(nil, false)` and changes nothing; on a non-empty queue
`PopMany k` returns exactly the values that `min k length` successive
Pop calls would return, in the same order — namely the first
`min k length` abstract elements — and leaves the queue in the state
those Pop calls would leave it in. -/
theorem C10_popmany_eq_pops {T : Type} [Inhabited T] (q : Queue T) (hInv : Inv q)
    (k : Nat) (hk : 1 ≤ k) :
    (q.len = 0 → popMany q k = (([], false), q))
    ∧ (0 < q.len →
        (popMany q k).1 = ((popN q (min k q.len)).1, true)
        ∧ (popMany q k).2 = (popN q (min k q.len)).2
        ∧ (popN q (min k q.len)).1 = (toList q).take (min k q.len)) := by
  constructor
  · intro h0
    simp [popMany, Empty, Length, h0]
  · intro hq
    have hminpos : 0 < min k q.len := lt_min (by omega) hq
    have hminle : min k q.len ≤ q.len := Nat.min_le_right k q.len
    have hcore := popMany_core_eq_popN (min k q.len) q hInv hminpos hminle
    rw [popMany_closed q hq k]
    refine ⟨?_, ?_, popN_take (min k q.len) q hInv hminle⟩
    · dsimp only
      rw [hcore.1]
    · dsimp only
      exact hcore.2

theorem C10_popmany_eq_pops_witness :
    (0 : Nat) < (push (push (new 2 : Queue Nat) 3) 4).len
    ∧ (popMany (push (push (new 2 : Queue Nat) 3) 4) 1).1
        = ((popN (push (push (new 2 : Queue Nat) 3) 4)
              (min 1 (push (push (new 2 : Queue Nat) 3) 4).len)).1, true) := by
  refine ⟨by decide, ?_⟩
  exact ((C10_popmany_eq_pops (push (push (new 2 : Queue Nat) 3) 4)
    (by decide) 1 (by decide)).2 (by decide)).1

end goring

namespace message

/-- Error values from the errors package that route.go can return. -/
inductive BatteryError where
  | routeFieldCantEmpty
  | invalidRoute
  | connectionClosed
  | receivedMsgSmallerThanExpected
  | wrongPacketType
  | invalidHeader
deriving DecidableEq

/-- Go `unicode.IsSpace`, used by `strings.TrimSpace`.  Character codes
11 and 12 are vertical tab and form feed; 133 and 160 are NEL and NBSP;
the remaining codes are the Unicode White_Space code points above
Latin-1. -/
def goIsSpace (c : Char) : Bool :=
  c == ' ' || c == '\t' || c == '\n' || c.toNat == 11 || c.toNat == 12 || c == '\r'
    || c.toNat == 133 || c.toNat == 160 || c.toNat == 5760
    || (decide (8192 ≤ c.toNat) && decide (c.toNat ≤ 8202))
    || c.toNat == 8232 || c.toNat == 8233 || c.toNat == 8239 || c.toNat == 8287
    || c.toNat == 12288

/-- Go `strings.TrimSpace`: drop leading and trailing white space. -/
def goTrimSpace (s : List Char) : List Char :=
  ((s.dropWhile goIsSpace).reverse.dropWhile goIsSpace).reverse

/-- Go `strings.Split(s, ".")`: the segments of `s` between dots.  The
result always has one more entry than the number of dots. -/
def goSplitDot : List Char → List (List Char)
  | [] => [[]]
  | c :: rest =>
    if c = '.' then [] :: goSplitDot rest
    else
      match goSplitDot rest with
      | [] => [[c]]
      | s :: ss => (c :: s) :: ss

/-- `Route` from route.go. -/
structure Route where
  Service : List Char
  Method : List Char
deriving DecidableEq

/-- `NewRoute` from route.go. -/
def NewRoute (service method : List Char) : Route := ⟨service, method⟩

/-- `Route.String` from route.go: `service.method`, or `method` when the
service is empty. -/
def Route.String (r : Route) : List Char :=
  if r.Service ≠ [] then r.Service ++ '.' :: r.Method else r.Method

/-- `DecodeRoute` from route.go: split on dots, reject any segment that
trims to empty, then accept one or two segments. -/
def DecodeRoute (route : List Char) : Except BatteryError Route :=
  let r := goSplitDot route
  if r.any (fun s => (goTrimSpace s).isEmpty) then
    Except.error BatteryError.routeFieldCantEmpty
  else
    match r with
    | [a, b] => Except.ok (NewRoute a b)
    | [a] => Except.ok (NewRoute [] a)
    | _ => Except.error BatteryError.invalidRoute

deriving instance DecidableEq for Except

example : DecodeRoute ("room. ".toList) = Except.error BatteryError.routeFieldCantEmpty := by
  decide
example : DecodeRoute ("a.b.c".toList) = Except.error BatteryError.invalidRoute := by decide
example : DecodeRoute ("ping".toList) = Except.ok (NewRoute [] ("ping".toList)) := by decide
example : DecodeRoute ("room.join".toList)
    = Except.ok (NewRoute ("room".toList) ("join".toList)) := by decide
example : Route.String (NewRoute ("room".toList) ("join".toList)) = "room.join".toList := by
  decide

lemma goSplitDot_no_dot (s : List Char) (h : '.' ∉ s) : goSplitDot s = [s] := by
  induction s with
  | nil => rfl
  | cons c rest ih =>
    simp only [List.mem_cons, not_or] at h
    obtain ⟨h1, h2⟩ := h
    unfold goSplitDot
    rw [if_neg (fun he => h1 he.symm)]
    rw [ih h2]

lemma goSplitDot_append (a b : List Char) (h : '.' ∉ a) :
    goSplitDot (a ++ '.' :: b) = a :: goSplitDot b := by
  induction a with
  | nil =>
    simp only [List.nil_append]
    conv_lhs => simp only [goSplitDot]
    simp
  | cons c a ih =>
    simp only [List.mem_cons, not_or] at h
    obtain ⟨h1, h2⟩ := h
    simp only [List.cons_append]
    conv_lhs => simp only [goSplitDot]
    rw [if_neg (fun he => h1 he.symm)]
    rw [ih h2]

/-- C5: DecodeRoute behaviour, case by case in the order the code checks
them.  Any input with a dot-separated segment that is empty or
whitespace-only is rejected with the route-field-empty error; any input
with three or more segments, none of them blank, is rejected with the
invalid-route error; a single dot-free non-blank segment decodes to a
route with empty service, as on the concrete inputs given by the
specification. -/
theorem C5_decode_route_cases :
    (∀ s : List Char,
        (goSplitDot s).any (fun seg => (goTrimSpace seg).isEmpty) = true →
        DecodeRoute s = Except.error BatteryError.routeFieldCantEmpty)
    ∧ (∀ s : List Char,
        3 ≤ (goSplitDot s).length →
        (goSplitDot s).any (fun seg => (goTrimSpace seg).isEmpty) = false →
        DecodeRoute s = Except.error BatteryError.invalidRoute)
    ∧ DecodeRoute ("room. ".toList) = Except.error BatteryError.routeFieldCantEmpty
    ∧ DecodeRoute ("a.b.c".toList) = Except.error BatteryError.invalidRoute
    ∧ (∀ s : List Char, '.' ∉ s → (goTrimSpace s).isEmpty = false →
        DecodeRoute s = Except.ok (NewRoute [] s))
    ∧ DecodeRoute ("ping".toList) = Except.ok (NewRoute [] ("ping".toList)) := by
  refine ⟨?_, ?_, by decide, by decide, ?_, by decide⟩
  · intro s h
    simp [DecodeRoute, h]
  · intro s h hfalse
    simp only [DecodeRoute, hfalse, Bool.false_eq_true, if_false]
    rcases hsp : goSplitDot s with _ | ⟨a, _ | ⟨b, _ | ⟨c, l⟩⟩⟩
    · simp [hsp] at h
    · simp [hsp] at h
    · simp [hsp] at h
    · rfl
  · intro s hdot hne
    have hsp := goSplitDot_no_dot s hdot
    simp [DecodeRoute, hsp, hne, NewRoute]

theorem C5_decode_route_cases_witness :
    DecodeRoute ("x..y".toList) = Except.error BatteryError.routeFieldCantEmpty
    ∧ DecodeRoute ("sv.md.ex".toList) = Except.error BatteryError.invalidRoute
    ∧ DecodeRoute ("ready".toList) = Except.ok (NewRoute [] ("ready".toList)) :=
  ⟨C5_decode_route_cases.1 _ (by decide),
   C5_decode_route_cases.2.1 _ (by decide) (by decide),
   C5_decode_route_cases.2.2.2.2.1 _ (by decide) (by decide)⟩

/-- C6: round trip between Route.String and DecodeRoute.  For a route
whose service and method contain no dot, whose method is not blank, and
whose service is either empty or not blank, String produces
`service.method` (just `method` when the service is empty) and
DecodeRoute maps it back to the original route with no error. -/
theorem C6_route_string_roundtrip (svc mth : List Char)
    (hs : '.' ∉ svc) (hm : '.' ∉ mth)
    (hmne : (goTrimSpace mth).isEmpty = false)
    (hsne : svc = [] ∨ (goTrimSpace svc).isEmpty = false) :
    Route.String (NewRoute svc mth) = (if svc = [] then mth else svc ++ '.' :: mth)
    ∧ DecodeRoute (Route.String (NewRoute svc mth)) = Except.ok (NewRoute svc mth) := by
  rcases Decidable.em (svc = []) with he | he
  · subst he
    refine ⟨by simp [Route.String, NewRoute], ?_⟩
    have hsp := goSplitDot_no_dot mth hm
    simp [Route.String, NewRoute, DecodeRoute, hsp, hmne]
  · have hstr : Route.String (NewRoute svc mth) = svc ++ '.' :: mth := by
      simp [Route.String, NewRoute, he]
    have hsp : goSplitDot (svc ++ '.' :: mth) = svc :: goSplitDot mth :=
      goSplitDot_append svc mth hs
    have hspm := goSplitDot_no_dot mth hm
    have hsvcne : (goTrimSpace svc).isEmpty = false := hsne.resolve_left he
    refine ⟨by rw [hstr, if_neg he], ?_⟩
    rw [hstr]
    simp [DecodeRoute, hsp, hspm, hmne, hsvcne, NewRoute]

theorem C6_route_string_roundtrip_witness :
    DecodeRoute (Route.String (NewRoute ("room".toList) ("join".toList)))
      = Except.ok (NewRoute ("room".toList) ("join".toList))
    ∧ DecodeRoute (Route.String (NewRoute [] ("ping".toList)))
      = Except.ok (NewRoute [] ("ping".toList)) :=
  ⟨(C6_route_string_roundtrip ("room".toList) ("join".toList)
      (by decide) (by decide) (by decide) (Or.inr (by decide))).2,
   (C6_route_string_roundtrip [] ("ping".toList)
      (by decide) (by decide) (by decide) (Or.inl rfl)).2⟩

end message

namespace acceptor

/-- Packet header length from the codec package (4 bytes). -/
def HeadLength : Nat := 4

/-- Modelled from the spec: `codec.ParseHeader` is not among the
sources, only its caller `TCPConn.GetNextMessage`.  Per the
specification the header is 4 bytes, byte 0 is the packet type (valid
types 1..5, unknown type is a hard error) and bytes 1..3 are the
big-endian payload length.  Returns `(type, length)`. -/
def ParseHeader (header : List Nat) : Except message.BatteryError (Nat × Nat) :=
  if header.length ≠ HeadLength then Except.error message.BatteryError.invalidHeader
  else
    let typ := header.getD 0 0
    if typ < 1 ∨ 5 < typ then Except.error message.BatteryError.wrongPacketType
    else
      Except.ok (typ, header.getD 1 0 * 65536 + header.getD 2 0 * 256 + header.getD 3 0)

/-- `TCPConn.GetNextMessage` from the acceptor package.  The connection
is modelled as the list of bytes the stream will yield;
`io.ReadAll(io.LimitReader(conn, n))` yields the first `n` bytes of the
stream, or fewer when the stream ends. -/
def GetNextMessage (stream : List Nat) : Except message.BatteryError (List Nat) :=
  let header := stream.take HeadLength
  if header.length = 0 then Except.error message.BatteryError.connectionClosed
  else
    match ParseHeader header with
    | Except.error e => Except.error e
    | Except.ok (_, size) =>
      let data := (stream.drop HeadLength).take size
      if data.length < size then
        Except.error message.BatteryError.receivedMsgSmallerThanExpected
      else Except.ok (header ++ data)

example : GetNextMessage [4, 0, 0, 2, 9, 9, 7] = Except.ok [4, 0, 0, 2, 9, 9] := by decide
example : GetNextMessage [] = Except.error message.BatteryError.connectionClosed := by decide
example : GetNextMessage [4, 0, 0, 2, 9]
    = Except.error message.BatteryError.receivedMsgSmallerThanExpected := by decide

/-- C7: GetNextMessage reads exactly the 4-byte header and then exactly
the payload length the header declares, and returns the header
concatenated with the body, independently of whatever bytes follow in
the stream; on a stream that yields no header bytes it returns the
connection-closed error; when the stream yields a body shorter than the
declared length it returns the short-read error. -/
theorem C7_get_next_message (t l1 l2 l3 : Nat) (body rest : List Nat)
    (htl : 1 ≤ t) (htu : t ≤ 5) :
    (body.length = l1 * 65536 + l2 * 256 + l3 →
      GetNextMessage (t :: l1 :: l2 :: l3 :: (body ++ rest))
        = Except.ok (t :: l1 :: l2 :: l3 :: body))
    ∧ GetNextMessage [] = Except.error message.BatteryError.connectionClosed
    ∧ (body.length < l1 * 65536 + l2 * 256 + l3 →
      GetNextMessage (t :: l1 :: l2 :: l3 :: body)
        = Except.error message.BatteryError.receivedMsgSmallerThanExpected) := by
  refine ⟨?_, by decide, ?_⟩
  · intro hlen
    simp only [GetNextMessage, HeadLength, ParseHeader]
    simp only [List.take_succ_cons, List.take_zero, List.drop_succ_cons, List.drop_zero]
    simp only [List.length_cons, List.length_nil]
    simp only [List.getD_cons_zero, List.getD_cons_succ]
    rw [if_neg (by omega)]
    rw [if_neg (by omega)]
    rw [if_neg (by omega)]
    dsimp only
    rw [← hlen, List.take_left]
    rw [if_neg (by omega)]
    rfl
  · intro hlen
    simp only [GetNextMessage, HeadLength, ParseHeader]
    simp only [List.take_succ_cons, List.take_zero, List.drop_succ_cons, List.drop_zero]
    simp only [List.length_cons, List.length_nil]
    simp only [List.getD_cons_zero, List.getD_cons_succ]
    rw [if_neg (by omega)]
    rw [if_neg (by omega)]
    rw [if_neg (by omega)]
    dsimp only
    rw [List.take_of_length_le (by omega)]
    rw [if_pos (by omega)]

theorem C7_get_next_message_witness :
    GetNextMessage [4, 0, 0, 2, 9, 9, 7] = Except.ok [4, 0, 0, 2, 9, 9]
    ∧ GetNextMessage [4, 0, 0, 2, 9]
        = Except.error message.BatteryError.receivedMsgSmallerThanExpected :=
  ⟨(C7_get_next_message 4 0 0 2 [9, 9] [7] (by decide) (by decide)).1 (by decide),
   (C7_get_next_message 4 0 0 2 [9] [] (by decide) (by decide)).2.2 (by decide)⟩

end acceptor

namespace actorm

/-- Errors a future can complete with. -/
inductive FutureError where
  | timeout
  | deadLetter
deriving DecidableEq

/-- Message payload of an envelope delivered to or by a future:
an application value wrapped by `WrapEnvelope`, the special
`DeadLetterResponse` system message, or a future error wrapped as a
message (as the timeout path wraps `ErrTimeout`). -/
inductive EnvMsg (α : Type) where
  | val (a : α)
  | deadLetterResponse
  | errEnv (e : FutureError)
deriving DecidableEq

/-- Modelled from the spec: actor/future.go is not among the sources,
only its tests.  State of a `futureProcess`: the recorded pipe sinks,
the at-most-once `done` flag, the stored result envelope and the stored
error, per spec 3 (Future) and 4.4. -/
structure FutureState (α : Type) where
  pipes : List Nat
  done : Bool
  result : Option (EnvMsg α)
  err : Option FutureError
deriving DecidableEq

/-- A freshly registered future: no pipes, not done, no result. -/
def newFutureState (α : Type) : FutureState α :=
  { pipes := [], done := false, result := none, err := none }

/-- Modelled from the spec: `futureProcess.SendUserMessage`.  A late
arrival after completion is dropped; a `DeadLetterResponse` completes
the future with `ErrDeadLetter`; any other envelope completes it with
that envelope as the result and forwards it to every recorded pipe
sink; the sinks are cleared after delivery.  Returns the new state and
the list of `(target, envelope)` deliveries. -/
def sendUserMessage (st : FutureState α) (env : EnvMsg α) :
    FutureState α × List (Nat × EnvMsg α) :=
  if st.done then (st, [])
  else
    match env with
    | EnvMsg.deadLetterResponse =>
      ({ pipes := [], done := true, result := none, err := some FutureError.deadLetter },
       st.pipes.map (fun p => (p, EnvMsg.errEnv FutureError.deadLetter)))
    | e =>
      ({ pipes := [], done := true, result := some e, err := none },
       st.pipes.map (fun p => (p, e)))

/-- Modelled from the spec: the timeout path completes the future with
`ErrTimeout`, delivers it to every pipe sink and clears them. -/
def timeoutFire (st : FutureState α) : FutureState α × List (Nat × EnvMsg α) :=
  if st.done then (st, [])
  else
    ({ pipes := [], done := true, result := none, err := some FutureError.timeout },
     st.pipes.map (fun p => (p, EnvMsg.errEnv FutureError.timeout)))

/-- Modelled from the spec: `Future.PipeTo` records the target as a
completion sink; if the future is already completed the stored result
is forwarded immediately. -/
def pipeTo (st : FutureState α) (target : Nat) : FutureState α × List (Nat × EnvMsg α) :=
  if st.done then
    (st, [(target,
      match st.result with
      | some env => env
      | none =>
        EnvMsg.errEnv (match st.err with | some e => e | none => FutureError.timeout))])
  else ({ st with pipes := st.pipes ++ [target] }, [])

/-- Modelled from the spec: `Future.Result` on a completed future
returns the stored `(value, err)` pair. -/
def futureResult (st : FutureState α) : Option (EnvMsg α) × Option FutureError :=
  (st.result, st.err)

lemma foldl_pipeTo (ts : List Nat) : ∀ (ps : List Nat),
    ts.foldl (fun s t => (pipeTo s t).1)
        ({ pipes := ps, done := false, result := none, err := none } : FutureState α)
      = { pipes := ps ++ ts, done := false, result := none, err := none } := by
  induction ts with
  | nil => intro ps; simp
  | cons t ts ih =>
    intro ps
    rw [List.foldl_cons]
    have hstep : (pipeTo ({ pipes := ps, done := false, result := none, err := none }
        : FutureState α) t).1
        = { pipes := ps ++ [t], done := false, result := none, err := none } := rfl
    rw [hstep, ih (ps ++ [t])]
    simp

lemma map_filter_single {β : Type} (m : β) :
    ∀ (l : List Nat) (t : Nat), l.Nodup → t ∈ l →
      (l.map (fun p => (p, m))).filter (fun d => d.1 == t) = [(t, m)] := by
  intro l
  induction l with
  | nil => intro t _ h; simp at h
  | cons a l ih =>
    intro t hnd hmem
    obtain ⟨hna, hndl⟩ := List.nodup_cons.mp hnd
    rw [List.map_cons]
    rcases List.mem_cons.mp hmem with he | hmem2
    · subst he
      rw [List.filter_cons_of_pos (by simp)]
      have hnone : (l.map (fun p => (p, m))).filter (fun d => d.1 == t) = [] := by
        refine List.filter_eq_nil_iff.mpr ?_
        intro d hd
        simp only [List.mem_map] at hd
        obtain ⟨p, hp, hpd⟩ := hd
        subst hpd
        simp only [beq_iff_eq]
        intro he
        exact hna (he ▸ hp)
      rw [hnone]
    · rw [List.filter_cons_of_neg (by
        simp only [beq_iff_eq]
        intro he
        exact hna (he ▸ hmem2))]
      exact ih t hndl hmem2

/-- C3: when a value envelope is sent to a future that has not yet
completed or timed out, every process previously registered via PipeTo
receives exactly one envelope equal to that value, and the list of pipe
sinks of the future is empty afterwards. -/
theorem C3_future_pipes {α : Type} (targets : List Nat) (v : α) (hnd : targets.Nodup) :
    ((sendUserMessage
        (targets.foldl (fun s t => (pipeTo s t).1) (newFutureState α))
        (EnvMsg.val v)).1.pipes = [])
    ∧ (∀ t ∈ targets,
        ((sendUserMessage
            (targets.foldl (fun s t => (pipeTo s t).1) (newFutureState α))
            (EnvMsg.val v)).2.filter (fun d => d.1 == t)) = [(t, EnvMsg.val v)]) := by
  have hfold := foldl_pipeTo (α := α) targets []
  simp only [List.nil_append] at hfold
  have hsend : sendUserMessage
      ({ pipes := targets, done := false, result := none, err := none } : FutureState α)
      (EnvMsg.val v)
      = ({ pipes := [], done := true, result := some (EnvMsg.val v), err := none },
         targets.map (fun p => (p, EnvMsg.val v))) := rfl
  constructor
  · show (sendUserMessage _ _).1.pipes = []
    rw [show (targets.foldl (fun s t => (pipeTo s t).1) (newFutureState α))
        = { pipes := targets, done := false, result := none, err := none } from hfold]
    rw [hsend]
  · intro t hmem
    rw [show (targets.foldl (fun s t => (pipeTo s t).1) (newFutureState α))
        = { pipes := targets, done := false, result := none, err := none } from hfold]
    rw [hsend]
    exact map_filter_single (EnvMsg.val v) targets t hnd hmem

theorem C3_future_pipes_witness :
    ((sendUserMessage
        ([1, 2, 3].foldl (fun s t => (pipeTo s t).1) (newFutureState (List Char)))
        (EnvMsg.val ("hello".toList))).1.pipes = [])
    ∧ (sendUserMessage
        ([1, 2, 3].foldl (fun s t => (pipeTo s t).1) (newFutureState (List Char)))
        (EnvMsg.val ("hello".toList))).2.filter (fun d => d.1 == 2)
          = [(2, EnvMsg.val ("hello".toList))] :=
  ⟨(C3_future_pipes [1, 2, 3] ("hello".toList) (by decide)).1,
   (C3_future_pipes [1, 2, 3] ("hello".toList) (by decide)).2 2 (by decide)⟩

/-- C4: sending a DeadLetterResponse envelope to a future that has not
yet received a result and has not timed out completes it, and Result
then returns `(nil, ErrDeadLetter)`. -/
theorem C4_future_deadletter {α : Type} (st : FutureState α) (hnotdone : st.done = false) :
    futureResult (sendUserMessage st EnvMsg.deadLetterResponse).1
      = (none, some FutureError.deadLetter)
    ∧ (sendUserMessage st EnvMsg.deadLetterResponse).1.done = true := by
  unfold sendUserMessage
  rw [hnotdone]
  exact ⟨rfl, rfl⟩

theorem C4_future_deadletter_witness :
    futureResult (sendUserMessage (newFutureState Nat) EnvMsg.deadLetterResponse).1
      = (none, some FutureError.deadLetter) :=
  (C4_future_deadletter (newFutureState Nat) rfl).1

end actorm

namespace client

/-- Message type constants from the message package. -/
inductive MsgType where
  | request
  | notify
  | response
  | push
deriving DecidableEq

/-- Message payload bytes.  The reaper serialises a battery error value
with `json.Marshal`; serialisation is kept abstract as a tagged
constructor carrying the error kind and its stable code. -/
inductive Payload where
  | raw (bytes : List Nat)
  | marshalledError (kind : List Char) (code : List Char)
deriving DecidableEq

/-- `message.Message` as used by the client: type, id, route, data and
error flag. -/
structure Message where
  Typ : MsgType
  ID : Nat
  Route : message.Route
  Data : Payload
  Err : Bool
deriving DecidableEq

/-- `pendingRequest` from the client package. -/
structure PendingRequest where
  msg : Message
  sentAt : Nat
deriving DecidableEq

/-- Modelled from the spec: `battery.Error(errors.New("request
timeout"), "PIT-504")` marshalled with `json.Marshal`; the battery
errors package is not among the sources, so the payload is the
abstract serialisation of the error kind with its stable code. -/
def marshalledTimeoutError : Payload :=
  Payload.marshalledError ("request timeout".toList) ("PIT-504".toList)

/-- The timeout condition of the reaper:
`time.Now().Sub(v.sentAt) > c.requestTimeout`. -/
def expiredB (now timeout : Nat) (pr : PendingRequest) : Bool :=
  decide (timeout < now - pr.sentAt)

/-- The Response message the reaper builds for a timed-out request. -/
def timeoutResponse (pr : PendingRequest) : Message :=
  { Typ := MsgType.response
    ID := pr.msg.ID
    Route := pr.msg.Route
    Data := marshalledTimeoutError
    Err := true }

/-- `Client.pendingRequestsReaper`, one tick: collect the pending
requests older than the timeout, emit one timeout Response for each
(sent to `IncomingMsgChan`, modelled as the returned message list) and
delete each from the pending map (keyed by the message id).  The
pending map is modelled as an association list. -/
def reaperTick (pending : List (Nat × PendingRequest)) (now timeout : Nat) :
    List Message × List (Nat × PendingRequest) :=
  let toDelete := pending.filter (fun kv => expiredB now timeout kv.2)
  let msgs := toDelete.map (fun kv => timeoutResponse kv.2)
  let remaining := toDelete.foldl
    (fun p kv => p.filter (fun kv2 => kv2.1 != kv.2.msg.ID)) pending
  (msgs, remaining)

/-- `Client.handlePackets`, Data-packet branch, after the packet body
was decoded into a message: a Response whose id is still pending is
delivered and its pending entry removed; a Response whose id is not
pending is discarded (`continue`); any other message type is delivered
unchanged.  Returns the new pending map and the message delivered to
`IncomingMsgChan`, when any. -/
def handleDataPacket (pending : List (Nat × PendingRequest)) (m : Message) :
    List (Nat × PendingRequest) × Option Message :=
  if m.Typ = MsgType.response then
    if pending.any (fun kv => kv.1 == m.ID) then
      (pending.filter (fun kv => kv.1 != m.ID), some m)
    else (pending, none)
  else (pending, some m)

/-- An event the client processes: a decoded Data packet arriving from
the server, or one reaper tick at a given time. -/
inductive ClientEvent where
  | recvData (m : Message)
  | tick (now : Nat)

/-- One client step: the new pending map and the messages delivered to
the incoming channel. -/
def stepClient (timeout : Nat) (pending : List (Nat × PendingRequest)) :
    ClientEvent → List (Nat × PendingRequest) × List Message
  | ClientEvent.recvData m =>
    let r := handleDataPacket pending m
    (r.1, r.2.toList)
  | ClientEvent.tick now =>
    let r := reaperTick pending now timeout
    (r.2, r.1)

/-- Run a sequence of client events, accumulating delivered messages. -/
def runClient (timeout : Nat) (pending : List (Nat × PendingRequest)) :
    List ClientEvent → List (Nat × PendingRequest) × List Message
  | [] => (pending, [])
  | e :: rest =>
    let r := stepClient timeout pending e
    let r2 := runClient timeout r.1 rest
    (r2.1, r.2 ++ r2.2)

/-- Number of delivered Response messages carrying the given id. -/
def respCount (id : Nat) (msgs : List Message) : Nat :=
  (msgs.filter (fun m => m.Typ == MsgType.response && m.ID == id)).length

lemma filter_map_timeout :
    ∀ (l : List (Nat × PendingRequest)) (kv : Nat × PendingRequest),
      (l.map Prod.fst).Nodup → (∀ e ∈ l, e.1 = e.2.msg.ID) → kv ∈ l →
      (l.map (fun e => timeoutResponse e.2)).filter (fun m => m.ID == kv.1)
        = [timeoutResponse kv.2] := by
  intro l
  induction l with
  | nil => intro kv _ _ h; simp at h
  | cons a l ih =>
    intro kv hnd hid hmem
    obtain ⟨hna, hndl⟩ := by
      rw [List.map_cons, List.nodup_cons] at hnd
      exact hnd
    rw [List.map_cons]
    rcases List.mem_cons.mp hmem with he | hmem2
    · subst he
      rw [List.filter_cons_of_pos (by
        simp only [timeoutResponse, beq_iff_eq]
        exact (hid kv (List.mem_cons_self kv l)).symm)]
      have hnone : (l.map (fun e => timeoutResponse e.2)).filter (fun m => m.ID == kv.1)
          = [] := by
        refine List.filter_eq_nil_iff.mpr ?_
        intro d hd
        simp only [List.mem_map] at hd
        obtain ⟨e, he2, hed⟩ := hd
        subst hed
        simp only [timeoutResponse, beq_iff_eq]
        rw [← hid e (List.mem_cons_of_mem kv he2)]
        intro heq
        exact hna (heq ▸ List.mem_map_of_mem Prod.fst he2)
      rw [hnone]
    · have hk : kv.1 ∈ l.map Prod.fst := List.mem_map_of_mem Prod.fst hmem2
      rw [List.filter_cons_of_neg (by
        simp only [timeoutResponse, beq_iff_eq]
        rw [← hid a (List.mem_cons_self a l)]
        intro heq
        exact hna (heq ▸ hk))]
      exact ih kv hndl (fun e he => hid e (List.mem_cons_of_mem a he)) hmem2

lemma mem_foldl_filter (ds : List (Nat × PendingRequest)) :
    ∀ (p : List (Nat × PendingRequest)) (e : Nat × PendingRequest),
      e ∈ ds.foldl (fun p kv => p.filter (fun kv2 => kv2.1 != kv.2.msg.ID)) p →
      e ∈ p ∧ ∀ d ∈ ds, e.1 ≠ d.2.msg.ID := by
  induction ds with
  | nil => intro p e he; exact ⟨he, by simp⟩
  | cons d ds ih =>
    intro p e he
    rw [List.foldl_cons] at he
    obtain ⟨hin, hall⟩ := ih _ e he
    have hf := List.mem_filter.mp hin
    refine ⟨hf.1, ?_⟩
    intro d2 hd2
    rcases List.mem_cons.mp hd2 with he2 | he2
    · subst he2
      simpa using hf.2
    · exact hall d2 he2

lemma foldl_filter_sublist (ds : List (Nat × PendingRequest)) :
    ∀ p, List.Sublist
      (ds.foldl (fun (p : List (Nat × PendingRequest)) kv =>
        p.filter (fun kv2 => kv2.1 != kv.2.msg.ID)) p) p := by
  induction ds with
  | nil => intro p; exact List.Sublist.refl p
  | cons d ds ih =>
    intro p
    rw [List.foldl_cons]
    exact (ih _).trans (List.filter_sublist p)

/-- C8: for every pending request whose age exceeds the request
timeout, one reaper tick emits exactly one Response to the incoming
channel carrying the original request id and route, with the error
flag set and the serialised timeout error with stable code PIT-504 as
payload, and removes that request from the pending map. -/
theorem C8_reaper_timeout (pending : List (Nat × PendingRequest)) (now timeout : Nat)
    (hnd : (pending.map Prod.fst).Nodup)
    (hid : ∀ kv ∈ pending, kv.1 = kv.2.msg.ID) :
    ∀ kv ∈ pending, timeout < now - kv.2.sentAt →
      (reaperTick pending now timeout).1.filter (fun m => m.ID == kv.1)
          = [timeoutResponse kv.2]
      ∧ timeoutResponse kv.2
          = { Typ := MsgType.response
              ID := kv.2.msg.ID
              Route := kv.2.msg.Route
              Data := Payload.marshalledError ("request timeout".toList) ("PIT-504".toList)
              Err := true }
      ∧ kv.1 ∉ (reaperTick pending now timeout).2.map Prod.fst := by
  intro kv hkv hexp
  have hDsub : List.Sublist (pending.filter (fun kv => expiredB now timeout kv.2)) pending :=
    List.filter_sublist pending
  have hDnd : ((pending.filter (fun kv => expiredB now timeout kv.2)).map Prod.fst).Nodup :=
    hnd.sublist (hDsub.map Prod.fst)
  have hDid : ∀ e ∈ pending.filter (fun kv => expiredB now timeout kv.2), e.1 = e.2.msg.ID :=
    fun e he => hid e (List.mem_filter.mp he).1
  have hkvD : kv ∈ pending.filter (fun kv => expiredB now timeout kv.2) :=
    List.mem_filter.mpr ⟨hkv, by simpa [expiredB] using hexp⟩
  refine ⟨?_, rfl, ?_⟩
  · exact filter_map_timeout _ kv hDnd hDid hkvD
  · intro hin
    simp only [reaperTick, List.mem_map] at hin
    obtain ⟨e, he, hekv⟩ := hin
    obtain ⟨_, hall⟩ := mem_foldl_filter _ pending e he
    refine hall kv hkvD ?_
    rw [hekv, hid kv hkv]

theorem C8_reaper_timeout_witness :
    (reaperTick
        [(1, { msg := { Typ := MsgType.request, ID := 1,
                        Route := message.NewRoute ("room".toList) ("join".toList),
                        Data := Payload.raw [], Err := false }, sentAt := 0 })]
        10 5).1.filter (fun m => m.ID == 1)
      = [timeoutResponse
          { msg := { Typ := MsgType.request, ID := 1,
                     Route := message.NewRoute ("room".toList) ("join".toList),
                     Data := Payload.raw [], Err := false }, sentAt := 0 }] :=
  ((C8_reaper_timeout
      [(1, { msg := { Typ := MsgType.request, ID := 1,
                      Route := message.NewRoute ("room".toList) ("join".toList),
                      Data := Payload.raw [], Err := false }, sentAt := 0 })]
      10 5 (by decide) (by decide))
    (1, { msg := { Typ := MsgType.request, ID := 1,
                   Route := message.NewRoute ("room".toList) ("join".toList),
                   Data := Payload.raw [], Err := false }, sentAt := 0 })
    (by decide) (by decide)).1

lemma respCount_append (id : Nat) (a b : List Message) :
    respCount id (a ++ b) = respCount id a + respCount id b := by
  simp [respCount, List.filter_append]

lemma keys_filter_subset (pending : List (Nat × PendingRequest))
    (f : Nat × PendingRequest → Bool) (id : Nat) :
    id ∈ (pending.filter f).map Prod.fst → id ∈ pending.map Prod.fst := by
  intro h
  simp only [List.mem_map] at h ⊢
  obtain ⟨e, he, h1⟩ := h
  exact ⟨e, (List.mem_filter.mp he).1, h1⟩

lemma count_tick (id : Nat) :
    ∀ (l : List (Nat × PendingRequest)), (l.map Prod.fst).Nodup →
      (∀ e ∈ l, e.1 = e.2.msg.ID) →
      respCount id (l.map (fun kv => timeoutResponse kv.2))
        = if id ∈ l.map Prod.fst then 1 else 0 := by
  intro l
  induction l with
  | nil => intro _ _; simp [respCount]
  | cons a l ih =>
    intro hnd hidl
    rw [List.map_cons, List.nodup_cons] at hnd
    obtain ⟨hna, hndl⟩ := hnd
    have hida := hidl a (List.mem_cons_self a l)
    have htail := ih hndl (fun e he => hidl e (List.mem_cons_of_mem a he))
    rw [List.map_cons, List.map_cons]
    by_cases hai : a.1 = id
    · unfold respCount
      rw [List.filter_cons_of_pos (by simp [timeoutResponse, ← hida, hai])]
      rw [List.length_cons]
      have h0 : respCount id (l.map fun kv => timeoutResponse kv.2) = 0 := by
        rw [htail, if_neg (fun hin => hna (hai ▸ hin))]
      unfold respCount at h0
      rw [h0, if_pos (List.mem_cons.mpr (Or.inl hai.symm))]
    · unfold respCount
      rw [List.filter_cons_of_neg (by
        simp only [timeoutResponse, Bool.and_eq_true, beq_iff_eq, not_and]
        intro _
        rw [← hida]
        exact hai)]
      unfold respCount at htail
      rw [htail]
      refine if_congr ?_ rfl rfl
      constructor
      · exact fun h => List.mem_cons_of_mem _ h
      · intro h
        rcases List.mem_cons.mp h with h1 | h2
        · exact absurd h1.symm hai
        · exact h2

lemma runClient_bound (timeout id : Nat) :
    ∀ (events : List ClientEvent) (pending : List (Nat × PendingRequest)),
      (pending.map Prod.fst).Nodup →
      (∀ kv ∈ pending, kv.1 = kv.2.msg.ID) →
      respCount id (runClient timeout pending events).2
        ≤ (if id ∈ pending.map Prod.fst then 1 else 0) := by
  intro events
  induction events with
  | nil =>
    intro pending _ _
    have h0 : respCount id (runClient timeout pending []).2 = 0 := by
      simp [runClient, respCount]
    rw [h0]
    exact Nat.zero_le _
  | cons e rest ih =>
    intro pending hnd hid
    cases e with
    | recvData m =>
      simp only [runClient, stepClient]
      rw [respCount_append]
      by_cases htyp : m.Typ = MsgType.response
      · by_cases hany : pending.any (fun kv => kv.1 == m.ID) = true
        · have hstep : handleDataPacket pending m
              = (pending.filter (fun kv => kv.1 != m.ID), some m) := by
            unfold handleDataPacket
            rw [if_pos htyp, if_pos hany]
          rw [hstep]
          dsimp only
          simp only [Option.toList]
          have hsub : List.Sublist (pending.filter (fun kv => kv.1 != m.ID)) pending :=
            List.filter_sublist pending
          have hnd2 : ((pending.filter (fun kv => kv.1 != m.ID)).map Prod.fst).Nodup :=
            hnd.sublist (hsub.map Prod.fst)
          have hid2 : ∀ kv ∈ pending.filter (fun kv => kv.1 != m.ID), kv.1 = kv.2.msg.ID :=
            fun kv hkv => hid kv (List.mem_filter.mp hkv).1
          have hrest := ih (pending.filter (fun kv => kv.1 != m.ID)) hnd2 hid2
          by_cases hidm : m.ID = id
          · have hone : respCount id [m] = 1 := by
              simp [respCount, htyp, hidm]
            have hnotin : id ∉ (pending.filter (fun kv => kv.1 != m.ID)).map Prod.fst := by
              intro hin
              simp only [List.mem_map] at hin
              obtain ⟨e2, he2, h1⟩ := hin
              have hne := (List.mem_filter.mp he2).2
              rw [bne_iff_ne] at hne
              exact hne (h1.trans hidm.symm)
            have hin0 : id ∈ pending.map Prod.fst := by
              obtain ⟨kv, hkv, hbeq⟩ := List.any_eq_true.mp hany
              have hkid : kv.1 = id := (by simpa using hbeq : kv.1 = m.ID).trans hidm
              exact hkid ▸ List.mem_map_of_mem Prod.fst hkv
            rw [hone, if_pos hin0]
            rw [if_neg hnotin] at hrest
            omega
          · have hzero : respCount id [m] = 0 := by
              simp [respCount, hidm]
            rw [hzero]
            by_cases hin : id ∈ (pending.filter (fun kv => kv.1 != m.ID)).map Prod.fst
            · rw [if_pos (keys_filter_subset pending _ id hin)]
              rw [if_pos hin] at hrest
              omega
            · rw [if_neg hin] at hrest
              have hb : (0 : Nat) ≤ if id ∈ pending.map Prod.fst then 1 else 0 :=
                Nat.zero_le _
              omega
        · have hstep : handleDataPacket pending m = (pending, none) := by
            unfold handleDataPacket
            rw [if_pos htyp, if_neg hany]
          rw [hstep]
          dsimp only
          simp only [Option.toList]
          have h0 : respCount id ([] : List Message) = 0 := rfl
          have hrest := ih pending hnd hid
          omega
      · have hstep : handleDataPacket pending m = (pending, some m) := by
          unfold handleDataPacket
          rw [if_neg htyp]
        rw [hstep]
        dsimp only
        simp only [Option.toList]
        have hzero : respCount id [m] = 0 := by
          simp [respCount, htyp]
        have hrest := ih pending hnd hid
        omega
    | tick now =>
      simp only [runClient, stepClient, reaperTick]
      rw [respCount_append]
      have hDsub : List.Sublist (pending.filter (fun kv => expiredB now timeout kv.2))
          pending := List.filter_sublist pending
      have hDnd : ((pending.filter (fun kv => expiredB now timeout kv.2)).map
          Prod.fst).Nodup := hnd.sublist (hDsub.map Prod.fst)
      have hDid : ∀ e ∈ pending.filter (fun kv => expiredB now timeout kv.2),
          e.1 = e.2.msg.ID := fun e he => hid e (List.mem_filter.mp he).1
      have hcount := count_tick id (pending.filter (fun kv => expiredB now timeout kv.2))
        hDnd hDid
      have hRsub : List.Sublist
          ((pending.filter (fun kv => expiredB now timeout kv.2)).foldl
            (fun p kv => p.filter (fun kv2 => kv2.1 != kv.2.msg.ID)) pending) pending :=
        foldl_filter_sublist _ pending
      have hRnd := hnd.sublist (hRsub.map Prod.fst)
      have hRid : ∀ e ∈ (pending.filter (fun kv => expiredB now timeout kv.2)).foldl
          (fun p kv => p.filter (fun kv2 => kv2.1 != kv.2.msg.ID)) pending,
          e.1 = e.2.msg.ID := fun e he => hid e (hRsub.subset he)
      have hrest := ih _ hRnd hRid
      rw [hcount]
      by_cases hin : id ∈ (pending.filter (fun kv => expiredB now timeout kv.2)).map
          Prod.fst
      · have hidp : id ∈ pending.map Prod.fst := keys_filter_subset pending _ id hin
        have hnotinR : id ∉ ((pending.filter (fun kv => expiredB now timeout kv.2)).foldl
            (fun p kv => p.filter (fun kv2 => kv2.1 != kv.2.msg.ID)) pending).map
            Prod.fst := by
          intro hinr
          simp only [List.mem_map] at hinr hin
          obtain ⟨e, heR, he1⟩ := hinr
          obtain ⟨d, hdD, hd1⟩ := hin
          obtain ⟨_, hall⟩ := mem_foldl_filter _ pending e heR
          refine hall d hdD ?_
          rw [he1, ← hDid d hdD, hd1]
        rw [if_pos hin, if_pos hidp]
        rw [if_neg hnotinR] at hrest
        omega
      · rw [if_neg hin]
        by_cases hinp : id ∈ ((pending.filter (fun kv => expiredB now timeout kv.2)).foldl
            (fun p kv => p.filter (fun kv2 => kv2.1 != kv.2.msg.ID)) pending).map Prod.fst
        · have hmem : id ∈ pending.map Prod.fst := by
            simp only [List.mem_map] at hinp ⊢
            obtain ⟨e, he, h1⟩ := hinp
            exact ⟨e, hRsub.subset he, h1⟩
          rw [if_pos hmem]
          rw [if_pos hinp] at hrest
          omega
        · rw [if_neg hinp] at hrest
          have hb : (0 : Nat) ≤ if id ∈ pending.map Prod.fst then 1 else 0 :=
            Nat.zero_le _
          omega

/-- C9: at-most-once Response delivery per request id.  A decoded
Response whose id is no longer pending is discarded without touching
the pending map or the incoming channel, and consequently over any
sequence of server Data packets and reaper ticks a client whose
pending-request map has distinct ids keyed by message id delivers at
most one Response per id. -/
theorem C9_response_at_most_once (timeout : Nat) :
    (∀ (pending : List (Nat × PendingRequest)) (m : Message),
        m.Typ = MsgType.response → (∀ kv ∈ pending, kv.1 ≠ m.ID) →
        handleDataPacket pending m = (pending, none))
    ∧ (∀ (events : List ClientEvent) (pending : List (Nat × PendingRequest)) (id : Nat),
        (pending.map Prod.fst).Nodup →
        (∀ kv ∈ pending, kv.1 = kv.2.msg.ID) →
        respCount id (runClient timeout pending events).2 ≤ 1) := by
  constructor
  · intro pending m htyp hnone
    have hany : pending.any (fun kv => kv.1 == m.ID) = false := by
      refine List.any_eq_false.mpr ?_
      intro kv hkv
      simp only [beq_iff_eq]
      exact hnone kv hkv
    unfold handleDataPacket
    rw [if_pos htyp, if_neg (by simp [hany])]
  · intro events pending id hnd hid
    have hb := runClient_bound timeout id events pending hnd hid
    by_cases hin : id ∈ pending.map Prod.fst
    · rw [if_pos hin] at hb
      omega
    · rw [if_neg hin] at hb
      omega

theorem C9_response_at_most_once_witness :
    handleDataPacket []
        { Typ := MsgType.response, ID := 7, Route := message.NewRoute [] ("ping".toList),
          Data := Payload.raw [], Err := true } = ([], none)
    ∧ respCount 7 (runClient 5 []
        [ClientEvent.recvData
          { Typ := MsgType.response, ID := 7, Route := message.NewRoute [] ("ping".toList),
            Data := Payload.raw [], Err := true }]).2 ≤ 1 :=
  ⟨(C9_response_at_most_once 5).1 [] _ rfl (by simp),
   (C9_response_at_most_once 5).2 _ [] 7 (by simp) (by simp)⟩

end client
